import Mathlib

/-!
Shallow embedding of `src/hw2_signer/signer.go`: a data-transformation
pipeline computing an order-independent fingerprint of a batch of integers.

The two hash providers `DataSignerCrc32` (the spec's FastHash) and
`DataSignerMd5` (the spec's SlowHash) live outside the repository and are
modelled as opaque pure parameters `crc32 md5 : String → String`.

Channels carry Go `interface{}` values; in this pipeline only `int` and
`string` values ever flow, so items are modelled by the `Item` inductive.
A Go `panic` is modelled as the `Except.error` branch; the per-item
goroutine fan-out of a stage is modelled by its canonical determinization,
a left-to-right effectful map over the input list (downstream claims about
order-independence quantify over permutations of these lists).
-/

/-- An `interface{}` value flowing through a pipeline channel: the initial
items are Go `int`s, every later item is a Go `string`. -/
inductive Item where
  | int (n : Int) : Item
  | str (s : String) : Item
deriving DecidableEq, Repr

/-- Left-to-right effectful map over a list, erroring at the first failing
element — the determinization of a stage's per-item loop, where a `panic`
in any per-item task aborts the run. -/
def mapExcept (f : α → Except ε β) : List α → Except ε (List β)
  | [] => .ok []
  | a :: t => do
    let b ← f a
    let bs ← mapExcept f t
    return b :: bs

/-- The Serialized Slow-Hash Gate `syncMd5Signer.sign`: a process-wide
mutex wrapped around `DataSignerMd5`.  Its value-level content is the md5
call itself; the mutual exclusion it enforces is a scheduling property
with no value-level counterpart. -/
def syncMd5Sign (md5 : String → String) (data : String) : String :=
  md5 data

/-- The string built by `asyncSingleHash` for the decimal representation
`dataStr` of an item: `crc32(dataStr) ++ "~" ++ crc32(md5(dataStr))`, the
md5 call going through the gate. -/
def singleHashConcat (crc32 md5 : String → String) (dataStr : String) : String :=
  crc32 dataStr ++ "~" ++ crc32 (syncMd5Sign md5 dataStr)

/-- Per-item body of the first stage (`asyncSingleHash` in the source):
an `int` item is stringified with `strconv.Itoa` and fingerprinted; for
any other item the source panics. -/
def asyncSingleHash (crc32 md5 : String → String) (data : Item) :
    Except String Item :=
  match data with
  | .int dataInt => .ok (.str (singleHashConcat crc32 md5 (toString dataInt)))
  | _ => .error "could not convert to int"

/-- Stage 1, `SingleHash`: one `asyncSingleHash` task per input item, one
output item per task. -/
def SingleHash (crc32 md5 : String → String) (inp : List Item) :
    Except String (List Item) :=
  mapExcept (asyncSingleHash crc32 md5) inp

/-- The string built by `asyncMultiHash` for input string `dataStr`:
`crc32(toString i ++ dataStr)` for the six indices `i = 0..5`,
concatenated in slice (index) order. -/
def multiHashConcat (crc32 : String → String) (dataStr : String) : String :=
  String.join ((List.range 6).map fun i => crc32 (toString i ++ dataStr))

/-- Per-item body of the second stage (`asyncMultiHash` in the source):
a `string` item is multi-fingerprinted; for any other item the source
panics. -/
def asyncMultiHash (crc32 : String → String) (data : Item) :
    Except String Item :=
  match data with
  | .str dataStr => .ok (.str (multiHashConcat crc32 dataStr))
  | _ => .error "could not convert to string"

/-- Stage 2, `MultiHash`: one `asyncMultiHash` task per input item, one
output item per task. -/
def MultiHash (crc32 : String → String) (inp : List Item) :
    Except String (List Item) :=
  mapExcept (asyncMultiHash crc32) inp

/-- The type assertion `hash.(string)` performed by `CombineResults` on
each received item; a non-string item panics. -/
def itemString : Item → Except String String
  | .str s => .ok s
  | _ => .error "could not convert to string"

/-- Go's `sort.Strings`: sort a slice of strings in increasing
lexicographic order (the sort itself is standard-library code outside the
repository; `insertionSort` by `≤` realizes its documented contract). -/
def sortStrings (l : List String) : List String :=
  l.insertionSort (· ≤ ·)

/-- The join loop at the end of `CombineResults`: write `hashes[i] ++ "_"`
for every index below `len - 1`, then write the last element. -/
def combineJoin (hashes : List String) : String :=
  ((hashes.take (hashes.length - 1)).foldl (fun res h => res ++ (h ++ "_")) "")
    ++ hashes.getLastD ""

/-- Stage 3, `CombineResults`: collect all items (each must be a string),
and if any arrived, emit the single `"_"`-join of their sorted sequence;
on zero items return without emitting. -/
def CombineResults (inp : List Item) : Except String (List Item) := do
  let hashes ← mapExcept itemString inp
  if hashes.length = 0 then
    return []
  else
    return [.str (combineJoin (sortStrings hashes))]

/-- A pipeline stage as wired by the executor: consume the full input
channel, produce the full output channel (or abort the run). -/
def Job := List Item → Except String (List Item)

/-- The executor `ExecutePipeline`: chain the output of each stage into
the next stage's input and run them all to completion.  The source indexes
`jobs[0]` before anything else, so an empty stage list is a runtime panic;
the first stage's input is the `nil` channel, from which no item ever
arrives. -/
def ExecutePipeline (jobs : List Job) : Except String (List Item) :=
  match jobs with
  | [] => .error "runtime error: index out of range"
  | j :: rest => rest.foldl (fun acc k => acc >>= k) (j [])

/-- The full three-stage pipeline on a batch of integers: per-item
fingerprint, then multi-fingerprint, then aggregator. -/
def signerPipeline (crc32 md5 : String → String) (items : List Int) :
    Except String (List Item) :=
  SingleHash crc32 md5 (items.map .int) >>= MultiHash crc32 >>= CombineResults

/-- Modelled from the spec: the join it describes for the aggregator,
`"_"` between consecutive elements, no leading or trailing separator
(used to compare the source's index-loop join against the spec's words). -/
def joinSpec : List String → String
  | [] => ""
  | [h] => h
  | h :: t@(_ :: _) => h ++ "_" ++ joinSpec t

/-! ### Helper lemmas -/

theorem mapExcept_ok_of_forall {f : α → Except ε β} {g : α → β} :
    ∀ {l : List α}, (∀ a ∈ l, f a = .ok (g a)) → mapExcept f l = .ok (l.map g)
  | [], _ => rfl
  | a :: t, h => by
    have ha := h a (List.mem_cons_self a t)
    have ht := mapExcept_ok_of_forall (fun x hx => h x (List.mem_cons_of_mem a hx))
    simp only [mapExcept, ha, ht, List.map_cons]
    rfl

theorem mapExcept_error_of_mem {f : α → Except ε β} :
    ∀ {l : List α} {x : α}, x ∈ l → (∀ b, f x ≠ .ok b) →
      ∃ e, mapExcept f l = .error e := by
  intro l
  induction l with
  | nil => intro x hx; cases hx
  | cons a t ih =>
    intro x hx hfx
    rcases List.mem_cons.mp hx with rfl | hxt
    · cases hfa : f x with
      | ok b => exact absurd hfa (hfx b)
      | error e => exact ⟨e, by simp only [mapExcept, hfa]; rfl⟩
    · cases hfa : f a with
      | error e => exact ⟨e, by simp only [mapExcept, hfa]; rfl⟩
      | ok b =>
        obtain ⟨e, he⟩ := ih hxt hfx
        exact ⟨e, by simp only [mapExcept, hfa, he]; rfl⟩

/-- Stage 1 on a list of integer items: never aborts, maps each integer
to its fingerprint string. -/
theorem singleHash_on_ints (crc32 md5 : String → String) (l : List Int) :
    SingleHash crc32 md5 (l.map .int) =
      .ok (l.map fun n => Item.str (singleHashConcat crc32 md5 (toString n))) := by
  unfold SingleHash
  rw [mapExcept_ok_of_forall (g := fun it => match it with
    | .int n => Item.str (singleHashConcat crc32 md5 (toString n))
    | _ => Item.str "")]
  · rw [List.map_map]; rfl
  · intro a ha
    obtain ⟨n, _, rfl⟩ := List.mem_map.mp ha
    rfl

/-- Stage 2 on a list of string items: never aborts, maps each string to
its multi-fingerprint. -/
theorem multiHash_on_strs (crc32 : String → String) (l : List String) :
    MultiHash crc32 (l.map .str) =
      .ok (l.map fun s => Item.str (multiHashConcat crc32 s)) := by
  unfold MultiHash
  rw [mapExcept_ok_of_forall (g := fun it => match it with
    | .str s => Item.str (multiHashConcat crc32 s)
    | _ => Item.str "")]
  · rw [List.map_map]; rfl
  · intro a ha
    obtain ⟨s, _, rfl⟩ := List.mem_map.mp ha
    rfl

/-- The aggregator's type-assertion loop on a list of string items
recovers exactly those strings. -/
theorem mapExcept_itemString_strs (l : List String) :
    mapExcept itemString (l.map .str) = .ok l := by
  rw [mapExcept_ok_of_forall (g := fun it => match it with
    | .str s => s
    | _ => "")]
  · rw [List.map_map]; exact congrArg Except.ok (List.map_id l)
  · intro a ha
    obtain ⟨s, _, rfl⟩ := List.mem_map.mp ha
    rfl

theorem except_bind_ok (a : α) (k : α → Except ε β) :
    (Except.ok a >>= k) = k a := rfl

theorem foldl_join_hoist :
    ∀ (l : List String) (a : String),
      l.foldl (fun res h => res ++ (h ++ "_")) a
        = a ++ l.foldl (fun res h => res ++ (h ++ "_")) "" := by
  intro l
  induction l with
  | nil => intro a; simp [String.append_empty]
  | cons x t ih =>
    intro a
    simp only [List.foldl_cons]
    rw [ih (a ++ (x ++ "_")), ih ("" ++ (x ++ "_")), String.empty_append,
      String.append_assoc]

theorem combineJoin_cons_cons (h a : String) (t : List String) :
    combineJoin (h :: a :: t) = h ++ "_" ++ combineJoin (a :: t) := by
  unfold combineJoin
  simp only [List.length_cons, Nat.add_sub_cancel, List.take_succ_cons,
    List.foldl_cons, List.getLastD_cons, String.empty_append]
  rw [foldl_join_hoist, String.append_assoc, String.append_assoc]

/-- The index loop that joins the sorted hashes agrees with the spec's
description of the join (separator between consecutive elements only). -/
theorem combineJoin_eq_joinSpec : ∀ l : List String, combineJoin l = joinSpec l
  | [] => by simp [combineJoin, joinSpec]
  | [h] => by simp [combineJoin, joinSpec, String.empty_append]
  | h :: a :: t => by
    rw [combineJoin_cons_cons, combineJoin_eq_joinSpec (a :: t)]
    simp only [joinSpec]

theorem sortStrings_sorted (l : List String) :
    (sortStrings l).Sorted (· ≤ ·) :=
  List.sorted_insertionSort _ l

theorem sortStrings_perm (l : List String) : (sortStrings l).Perm l :=
  List.perm_insertionSort _ l

/-- Sorting depends only on the multiset of strings. -/
theorem sortStrings_congr {l1 l2 : List String} (h : l1.Perm l2) :
    sortStrings l1 = sortStrings l2 :=
  List.eq_of_perm_of_sorted
    ((sortStrings_perm l1).trans (h.trans (sortStrings_perm l2).symm))
    (sortStrings_sorted l1) (sortStrings_sorted l2)

/-- The aggregator on a non-empty list of string items. -/
theorem combineResults_on_strs (l : List String) (h : l ≠ []) :
    CombineResults (l.map .str) = .ok [.str (combineJoin (sortStrings l))] := by
  unfold CombineResults
  rw [mapExcept_itemString_strs, except_bind_ok]
  exact if_neg (fun hl => h (List.length_eq_zero.mp hl))

/-! ### Claim theorems -/

/-- C2: for every integer item `x`, the per-item fingerprint stage emits
for `x` exactly `FastHash(str x) ++ "~" ++ FastHash(SlowHash(str x))`,
where `str x` is the canonical decimal representation of `x` and the
SlowHash call goes through the serialized gate. -/
theorem singleHash_emits_tilde_pair (crc32 md5 : String → String) (n : Int) :
    asyncSingleHash crc32 md5 (.int n) =
      .ok (.str (crc32 (toString n) ++ "~" ++ crc32 (md5 (toString n)))) := rfl

/-- C3: for every input string `s`, the multi-fingerprint stage emits for
`s` exactly the concatenation of the six fast hashes of `"0"+s` .. `"5"+s`
in ascending index order. -/
theorem multiHash_emits_six_in_index_order (crc32 : String → String) (s : String) :
    asyncMultiHash crc32 (.str s) =
      .ok (.str (crc32 ("0" ++ s) ++ crc32 ("1" ++ s) ++ crc32 ("2" ++ s) ++
        crc32 ("3" ++ s) ++ crc32 ("4" ++ s) ++ crc32 ("5" ++ s))) := rfl

/-- C4: for every non-empty list of input strings, the aggregator emits
exactly one string, the inputs sorted in lexicographic order and joined
with `"_"` between consecutive elements (no leading or trailing
separator, per the shape of `joinSpec`). -/
theorem combineResults_sorts_and_joins (l : List String) (h : l ≠ []) :
    CombineResults (l.map .str) = .ok [.str (joinSpec (sortStrings l))] ∧
    (sortStrings l).Sorted (· ≤ ·) ∧ (sortStrings l).Perm l :=
  ⟨by rw [combineResults_on_strs l h, combineJoin_eq_joinSpec],
   sortStrings_sorted l, sortStrings_perm l⟩

theorem combineResults_sorts_and_joins_witness :
    (["b", "a"] : List String) ≠ [] ∧
    (CombineResults (["b", "a"].map .str)
        = .ok [.str (joinSpec (sortStrings ["b", "a"]))] ∧
      (sortStrings ["b", "a"]).Sorted (· ≤ ·) ∧
      (sortStrings ["b", "a"]).Perm ["b", "a"]) :=
  ⟨by decide, combineResults_sorts_and_joins ["b", "a"] (by decide)⟩

/-- C6: on zero received items the aggregator emits nothing at all — an
empty output list, which is distinct from emitting the empty string. -/
theorem combineResults_empty_emits_nothing :
    CombineResults [] = .ok [] ∧ CombineResults [] ≠ .ok [Item.str ""] :=
  ⟨rfl, fun h => List.noConfusion (Except.ok.inj h)⟩

/-- C1: the final aggregated string of the full pipeline is invariant
under any permutation of a non-empty input batch of integers — a pure
function of the multiset of items, not of their processing order. -/
theorem pipeline_invariant_under_perm (crc32 md5 : String → String)
    (l1 l2 : List Int) (hp : l1.Perm l2) (hne : l1 ≠ []) :
    signerPipeline crc32 md5 l1 = signerPipeline crc32 md5 l2 := by
  have key : ∀ l : List Int, l ≠ [] →
      signerPipeline crc32 md5 l = .ok [.str (combineJoin (sortStrings
        (l.map fun n =>
          multiHashConcat crc32 (singleHashConcat crc32 md5 (toString n)))))] := by
    intro l hl
    unfold signerPipeline
    rw [singleHash_on_ints, except_bind_ok]
    have h1 : (l.map fun n => Item.str (singleHashConcat crc32 md5 (toString n)))
        = (l.map fun n => singleHashConcat crc32 md5 (toString n)).map .str := by
      rw [List.map_map]; rfl
    rw [h1, multiHash_on_strs, except_bind_ok]
    have h2 : ((l.map fun n => singleHashConcat crc32 md5 (toString n)).map
          fun s => Item.str (multiHashConcat crc32 s))
        = ((l.map fun n =>
            multiHashConcat crc32 (singleHashConcat crc32 md5 (toString n))).map
              .str) := by
      rw [List.map_map, List.map_map]; rfl
    rw [h2]
    exact combineResults_on_strs _
      (fun hL => hl (List.map_eq_nil_iff.mp hL))
  have hne2 : l2 ≠ [] := fun h2 => hne (List.Perm.eq_nil (h2 ▸ hp))
  rw [key l1 hne, key l2 hne2,
    sortStrings_congr (hp.map fun n =>
      multiHashConcat crc32 (singleHashConcat crc32 md5 (toString n)))]

theorem pipeline_invariant_under_perm_witness :
    ([1, 2] : List Int).Perm [2, 1] ∧ ([1, 2] : List Int) ≠ [] ∧
    signerPipeline id id [1, 2] = signerPipeline id id [2, 1] :=
  ⟨by decide, by decide,
   pipeline_invariant_under_perm id id [1, 2] [2, 1] (by decide) (by decide)⟩

/-- C7 counterexample: on an empty stage list the executor does not
return normally — `jobs[0]` is evaluated on the empty stage slice, so the
run aborts instead of producing an output. -/
theorem executePipeline_empty_not_normal :
    ¬ ∃ out, ExecutePipeline [] = .ok out := by
  rintro ⟨out, h⟩
  simp [ExecutePipeline] at h

/-- C7 (amended): given an empty list of stages, `ExecutePipeline` aborts
with an index-out-of-range panic (the source evaluates `jobs[0]` before
starting anything); no stage runs, but the call does not return
normally. -/
theorem executePipeline_empty_aborts :
    ExecutePipeline [] = .error "runtime error: index out of range" := rfl

/-- C8: an item reaching the first stage that is not an integer aborts
the run fatally (the stage-level run errors as well); for every integer
item the abort branch is unreachable and the item is processed
normally. -/
theorem singleHash_aborts_on_non_int (crc32 md5 : String → String) :
    (∀ n : Int, asyncSingleHash crc32 md5 (.int n)
        = .ok (.str (singleHashConcat crc32 md5 (toString n)))) ∧
    (∀ d : Item, (∀ n : Int, d ≠ .int n) →
        asyncSingleHash crc32 md5 d = .error "could not convert to int") ∧
    (∀ (inp : List Item) (d : Item), d ∈ inp → (∀ n : Int, d ≠ .int n) →
        ∃ e, SingleHash crc32 md5 inp = .error e) := by
  refine ⟨fun n => rfl, fun d hd => ?_, fun inp d hmem hd => ?_⟩
  · cases d with
    | int n => exact absurd rfl (hd n)
    | str s => rfl
  · apply mapExcept_error_of_mem hmem
    intro b hb
    cases d with
    | int n => exact hd n rfl
    | str s => exact Except.noConfusion hb

theorem singleHash_aborts_on_non_int_witness :
    asyncSingleHash id id (.int 5)
        = .ok (.str (singleHashConcat id id (toString (5 : Int)))) ∧
    asyncSingleHash id id (.str "x") = .error "could not convert to int" ∧
    ∃ e, SingleHash id id [.str "x"] = .error e :=
  ⟨(singleHash_aborts_on_non_int id id).1 5,
   (singleHash_aborts_on_non_int id id).2.1 (.str "x")
     (fun _ h => Item.noConfusion h),
   (singleHash_aborts_on_non_int id id).2.2 [.str "x"] (.str "x")
     (List.mem_singleton.mpr rfl) (fun _ h => Item.noConfusion h)⟩

/-- C9: no silent item loss on the success path — on a batch of `n`
integers the fingerprint stage emits exactly `n` strings, the
multi-fingerprint stage emits exactly `n` strings, and all `n` survive
into the aggregator's sorted sequence. -/
theorem stages_preserve_item_count (crc32 md5 : String → String) (l : List Int) :
    ∃ out1 out2 strs,
      SingleHash crc32 md5 (l.map .int) = .ok out1 ∧
      out1.length = l.length ∧ (∀ x ∈ out1, ∃ s, x = Item.str s) ∧
      MultiHash crc32 out1 = .ok out2 ∧
      out2.length = l.length ∧ (∀ x ∈ out2, ∃ s, x = Item.str s) ∧
      mapExcept itemString out2 = .ok strs ∧
      (sortStrings strs).length = l.length := by
  refine ⟨(l.map fun n => singleHashConcat crc32 md5 (toString n)).map .str,
    ((l.map fun n => singleHashConcat crc32 md5 (toString n)).map
      (multiHashConcat crc32)).map .str,
    (l.map fun n => singleHashConcat crc32 md5 (toString n)).map
      (multiHashConcat crc32),
    ?_, by simp, ?_, ?_, by simp, ?_, mapExcept_itemString_strs _, ?_⟩
  · rw [singleHash_on_ints]; simp only [List.map_map]; rfl
  · intro x hx
    obtain ⟨s, _, rfl⟩ := List.mem_map.mp hx
    exact ⟨s, rfl⟩
  · rw [multiHash_on_strs]; simp only [List.map_map]; rfl
  · intro x hx
    obtain ⟨s, _, rfl⟩ := List.mem_map.mp hx
    exact ⟨s, rfl⟩
  · rw [(sortStrings_perm _).length_eq]; simp

/-- C10: the multi-fingerprint stage and the aggregator also enforce item
types — each aborts the run when an input item is not a string, and for
string items the abort branch is unreachable. -/
theorem downstream_stages_type_check (crc32 : String → String) :
    (∀ s, asyncMultiHash crc32 (.str s) = .ok (.str (multiHashConcat crc32 s))) ∧
    (∀ d : Item, (∀ s, d ≠ .str s) →
        asyncMultiHash crc32 d = .error "could not convert to string") ∧
    (∀ inp : List Item, (∀ x ∈ inp, ∃ s, x = Item.str s) →
        ∃ v, CombineResults inp = .ok v) ∧
    (∀ (inp : List Item) (d : Item), d ∈ inp → (∀ s, d ≠ .str s) →
        ∃ e, CombineResults inp = .error e) := by
  refine ⟨fun s => rfl, fun d hd => ?_, fun inp hall => ?_, fun inp d hmem hd => ?_⟩
  · cases d with
    | int n => rfl
    | str s => exact absurd rfl (hd s)
  · have hg : ∀ a ∈ inp, itemString a = .ok ((fun it => match it with
        | Item.str s => s
        | _ => "") a) := by
      intro a ha
      obtain ⟨s, rfl⟩ := hall a ha
      rfl
    unfold CombineResults
    rw [mapExcept_ok_of_forall hg, except_bind_ok]
    by_cases hlen : (inp.map fun it => match it with
        | Item.str s => s
        | _ => "").length = 0
    · refine ⟨[], ?_⟩
      rw [if_pos hlen]; rfl
    · refine ⟨[Item.str (combineJoin (sortStrings (inp.map fun it => match it with
        | Item.str s => s
        | _ => "")))], ?_⟩
      rw [if_neg hlen]; rfl
  · have hfx : ∀ b, itemString d ≠ .ok b := by
      intro b hb
      cases d with
      | int n => exact Except.noConfusion hb
      | str s => exact hd s rfl
    obtain ⟨e, he⟩ := mapExcept_error_of_mem hmem hfx
    exact ⟨e, by unfold CombineResults; rw [he]; rfl⟩

theorem downstream_stages_type_check_witness :
    asyncMultiHash id (.str "a") = .ok (.str (multiHashConcat id "a")) ∧
    asyncMultiHash id (.int 3) = .error "could not convert to string" ∧
    (∃ v, CombineResults [.str "a"] = .ok v) ∧
    (∃ e, CombineResults [.int 3] = .error e) :=
  ⟨(downstream_stages_type_check id).1 "a",
   (downstream_stages_type_check id).2.1 (.int 3)
     (fun _ h => Item.noConfusion h),
   (downstream_stages_type_check id).2.2.1 [.str "a"]
     (fun _ hx => ⟨"a", List.mem_singleton.mp hx⟩),
   (downstream_stages_type_check id).2.2.2 [.int 3] (.int 3)
     (List.mem_singleton.mpr rfl) (fun _ h => Item.noConfusion h)⟩
